import Mathlib

/-!
Shallow embedding of the expression compiler in `src/main.cpp`:
a lexer (`parse_infix`), a shunting-yard parser (`shunting_yard`), a generic
postfix evaluator (`eval`) with an interpretation backend (`T = double`,
idealised here as `ℝ`) and a code-generation backend (LLVM IR, modelled
denotationally: an IR value handle denotes the real number the emitted
instructions compute).

Modelling conventions:
* `double` values are idealised as real numbers; the numeric payload of a
  token is kept syntactic (`SymNum`: an exact rational from `stod`, or the
  constant `M_PI` / `M_E`) so that the lexer and parser stay executable,
  and is mapped to `ℝ` by `SymNum.denote` exactly where the C++ reads the
  stored `double`.
* machine behaviour that is an uncaught exception or undefined behaviour
  (`std::map::at` on a missing key, `stod` out of range, reading a
  `std::vector` out of bounds, `top()` of an empty `std::stack`) is the
  distinguished outcome `Outcome.crash`, kept separate from the error
  paths the program itself reports (`printf` + `return false`).
-/

set_option exponentiation.threshold 1100

namespace Ariya

/-- The error messages the program can print before returning `false`. -/
inductive Err where
  | invalidChar : Char → Nat → Err   -- "Invalid character '%c' at position %ld"
  | parenMismatch : Err              -- "Parentheses are mismatched"
  | sepOutside : Err                 -- "Separator outside function"
  | syntaxErr : Err                  -- "Syntax error"
  deriving DecidableEq

/-- Abnormal-termination-aware result of a pipeline stage.  `err` is an
error the program reports itself (a `printf` followed by `return false`);
`crash` is an uncaught exception or undefined behaviour. -/
inductive Outcome (α : Type) where
  | ok : α → Outcome α
  | err : Err → Outcome α
  | crash : Outcome α
  deriving DecidableEq

end Ariya

namespace Ariya

/-- Sequence two stage outcomes, propagating errors and crashes
(the `if (!stage(..)) return 1;` chain in `main`). -/
def Outcome.bind {α β : Type} : Outcome α → (α → Outcome β) → Outcome β
  | .ok a, f => f a
  | .err e, _ => .err e
  | .crash, _ => .crash

namespace Operator

/-- `parser::Operator::Type` (src/main.cpp lines 37-57): the operator ids,
with precedence and arity read off the `op_id(precedence, arity)` encoding. -/
inductive Ty where
  | Noop | Sep | And | Or | Xor | Rsh | Lsh | Add | Sub
  | Mul | Div | Rem | Exp | Not | Pos | Neg | Lbr | Rbr | Fn
  deriving DecidableEq

/-- `Operator::precedence` : the `(precedence & 0xf)` field of `op_id`. -/
def precedence : Ty → Nat
  | .Noop => 0
  | .Sep => 1
  | .And | .Or | .Xor => 2
  | .Rsh | .Lsh => 3
  | .Add | .Sub => 4
  | .Mul | .Div | .Rem => 5
  | .Exp => 6
  | .Not | .Pos | .Neg => 7
  | .Lbr | .Rbr | .Fn => 8

/-- `Operator::arity` : the `(arity & 0xf)` field of `op_id`. -/
def arity : Ty → Nat
  | .Noop => 0
  | .Sep | .And | .Or | .Xor | .Rsh | .Lsh | .Add | .Sub
  | .Mul | .Div | .Rem | .Exp => 2
  | .Not | .Pos | .Neg => 1
  | .Lbr | .Rbr | .Fn => 0

/-- `Operator::sentinel` (src/main.cpp lines 71-73). -/
def sentinel (o : Ty) : Bool := o = Ty.Lbr || o = Ty.Fn

end Operator

namespace Function

/-- `parser::Function::Type` (src/main.cpp lines 78-108). -/
inductive Ty where
  | Pass | Abs | Acos | Acosh | Asin | Asinh | Atan | Atanh | Atan2
  | Cbrt | Ceil | Cos | Cosh | Exp | Floor | Round | Hypot
  | Log | Log2 | Log10 | Max | Min | Pow | Sin | Sinh | Sqrt
  | Tan | Tanh | Trunc
  deriving DecidableEq

/-- `Function::arity` (src/main.cpp lines 114-116): `-1` encodes variadic. -/
def arity : Ty → Int
  | .Atan2 | .Pow => 2
  | .Hypot | .Max | .Min => -1
  | _ => 1

/-- `Function::binary_reduce` (src/main.cpp lines 121-129): left-to-right
pairwise reduction, `T()` (i.e. `0.0` for doubles) on an empty vector. -/
def binary_reduce {T : Type} (zero : T) (f : T → T → T) : List T → T
  | [] => zero
  | [a] => a
  | a :: b :: rest => rest.foldl f (f a b)

end Function

/-- Syntactic description of the `double` a `Token::Value` stores: the exact
rational `stod` produced, or one of the named constants (`M_PI`, `M_E`). -/
inductive SymNum where
  | q : ℚ → SymNum
  | piC : SymNum
  | eC : SymNum
  deriving DecidableEq

/-- The real number a stored `double` stands for (`double` idealised as `ℝ`). -/
noncomputable def SymNum.denote : SymNum → ℝ
  | .q r => (r : ℝ)
  | .piC => Real.pi
  | .eC => Real.exp 1

/-- A C cast `(int)x` on a `double`: truncation toward zero. -/
noncomputable def ctruncR (x : ℝ) : ℤ := if 0 ≤ x then ⌊x⌋ else ⌈x⌉

/-- Truncation toward zero of a rational (Lean `Int` division truncates
toward zero, matching the C cast). -/
def ratTrunc (r : ℚ) : ℤ := r.num / (r.den : ℤ)

/-- Executable form of the C cast `(int)token->value()` on a token payload;
`symTrunc_eq_ctrunc` checks it against the denotational truncation. -/
def SymNum.symTrunc : SymNum → ℤ
  | .q r => ratTrunc r
  | .piC => 3
  | .eC => 2

/-- `parser::Token` (src/main.cpp lines 268-362), as a sum type: a value, an
operator, or a function with its running argument counter `_argc`. -/
inductive Tok where
  | val : SymNum → Tok
  | opTok : Operator.Ty → Tok
  | fnTok : Function.Ty → Nat → Tok
  deriving DecidableEq

/-- `Token::is_value`. -/
def Tok.is_value : Tok → Bool
  | .val _ => true
  | _ => false

/-- `Token::is_function`. -/
def Tok.is_function : Tok → Bool
  | .fnTok _ _ => true
  | _ => false

/-- `Token::operator_` : the operator kind, `Noop` for non-operator tokens. -/
def Tok.operator_ : Tok → Operator.Ty
  | .opTok o => o
  | _ => Operator.Ty.Noop

/-- `Token::is_operator`. -/
def Tok.is_operator : Tok → Bool
  | .opTok _ => true
  | _ => false

/-- `Token::is_sentinel`. -/
def Tok.is_sentinel (t : Tok) : Bool :=
  t.is_operator && Operator.sentinel t.operator_

/-- `Token::operator_arity` (reads the operator id's arity field). -/
def Tok.operator_arity (t : Tok) : Nat := Operator.arity t.operator_

/-- `Token::operator_precedence`. -/
def Tok.operator_precedence (t : Tok) : Nat := Operator.precedence t.operator_

/-! ## Lexer (`parse_infix`, src/main.cpp lines 366-424)

The token regex is an ordered alternation; `std::sregex_iterator` scans
left to right and at each position the first alternative that matches wins:
numeric literal, operator symbol, function name with a `\s*\(` lookahead,
constant (`e`/`pi`), whitespace, and finally any character (reported as an
invalid-character error).  The whole regex carries `std::regex::icase`.
Positions count characters (= bytes for the ASCII inputs considered). -/

/-- `\s` for the ASCII range. -/
def isWs (c : Char) : Bool :=
  c = ' ' || c = '\t' || c = '\n' || c = '\x0b' || c = '\x0c' || c = '\r'

/-- Value of a digit string, most significant first. -/
def digitsVal (ds : List Char) : Nat :=
  ds.foldl (fun a c => 10 * a + (c.toNat - 48)) 0

/-- A natural number as a rational (spelled with `mkRat` so that it
evaluates by kernel reduction). -/
def natQ (n : Nat) : ℚ := mkRat (Int.ofNat n) 1

/-- Exact rational value of a matched literal `ip . fp e ex`, i.e.
`(ip + fp / 10 ^ |fp|) * 10 ^ ex`, assembled as a single fraction in
`ℕ`/`ℤ` arithmetic so that it evaluates by kernel reduction. -/
def decimalVal (ip fp : List Char) (ex : Int) : ℚ :=
  let pw := Nat.pow 10 fp.length
  let base := digitsVal ip * pw + digitsVal fp
  if 0 ≤ ex then mkRat (Int.ofNat (base * Nat.pow 10 ex.toNat)) pw
  else mkRat (Int.ofNat base) (pw * Nat.pow 10 (-ex).toNat)

/-- Match the optional exponent part `(?:[eE][+-]?\d+)?`; returns the
exponent value and the number of characters consumed, or `none` when the
optional group matches empty. -/
def matchExp (cs : List Char) : Option (Int × Nat) :=
  match cs with
  | c :: rest =>
    if c = 'e' || c = 'E' then
      match rest with
      | '+' :: r2 =>
        let ds := r2.takeWhile Char.isDigit
        if ds.length = 0 then none else some (Int.ofNat (digitsVal ds), 2 + ds.length)
      | '-' :: r2 =>
        let ds := r2.takeWhile Char.isDigit
        if ds.length = 0 then none else some (-Int.ofNat (digitsVal ds), 2 + ds.length)
      | _ =>
        let ds := rest.takeWhile Char.isDigit
        if ds.length = 0 then none else some (Int.ofNat (digitsVal ds), 1 + ds.length)
    else none
  | [] => none

/-- Body of the numeric-literal alternative; only called when the head
character is a digit or `.` (the only characters the alternative
`(?:\d+(?:\.\d*)?|\.\d+)` can start with). -/
def matchNumberBody (cs : List Char) : Option (ℚ × Nat) :=
  let ip := cs.takeWhile Char.isDigit
  let rest1 := cs.drop ip.length
  if ip.length = 0 then
    match rest1 with
    | '.' :: r2 =>
      let fp := r2.takeWhile Char.isDigit
      if fp.length = 0 then none
      else
        match matchExp (r2.drop fp.length) with
        | some (ex, k) => some (decimalVal [] fp ex, 1 + fp.length + k)
        | none => some (decimalVal [] fp 0, 1 + fp.length)
    | _ => none
  else
    match rest1 with
    | '.' :: r2 =>
      let fp := r2.takeWhile Char.isDigit
      match matchExp (r2.drop fp.length) with
      | some (ex, k) => some (decimalVal ip fp ex, ip.length + 1 + fp.length + k)
      | none => some (decimalVal ip fp 0, ip.length + 1 + fp.length)
    | _ =>
      match matchExp rest1 with
      | some (ex, k) => some (decimalVal ip [] ex, ip.length + k)
      | none => some (decimalVal ip [] 0, ip.length)

/-- Match the numeric-literal alternative
`((?:\d+(?:\.\d*)?|\.\d+)(?:e[+-]?\d+)?)`; returns the exact value and the
consumed length.  The alternative can only match at a digit or a `.`. -/
def matchNumber (cs : List Char) : Option (ℚ × Nat) :=
  match cs with
  | [] => none
  | c :: _ => if c.isDigit || c = '.' then matchNumberBody cs else none

/-- `DBL_MAX` as an exact natural number, `2^1024 - 2^971`. -/
def dblMaxNat : Nat := Nat.pow 2 1024 - Nat.pow 2 971

/-- `std::stod`: the exact value of the literal, or `none` when the value
falls outside the range of `double` (in which case the real `stod` throws
an uncaught `std::out_of_range`).  The range test `|r| > DBL_MAX` is
spelled on the numerator and denominator so that it evaluates; rounding of
in-range values to the nearest `double` is idealised away. -/
def stod (r : ℚ) : Option ℚ :=
  if dblMaxNat * r.den < r.num.natAbs then none else some r

/-- Match the operator alternative `([()]|\*{2}|[-+~,\/*%|&^]|<<|>>)` and
look the symbol up in `token_to_operator` (src/main.cpp lines 146-162). -/
def matchOp (cs : List Char) : Option (Operator.Ty × Nat) :=
  match cs with
  | '(' :: _ => some (.Lbr, 1)
  | ')' :: _ => some (.Rbr, 1)
  | '*' :: '*' :: _ => some (.Exp, 2)
  | '-' :: _ => some (.Sub, 1)
  | '+' :: _ => some (.Add, 1)
  | '~' :: _ => some (.Not, 1)
  | ',' :: _ => some (.Sep, 1)
  | '/' :: _ => some (.Div, 1)
  | '*' :: _ => some (.Mul, 1)
  | '%' :: _ => some (.Rem, 1)
  | '|' :: _ => some (.Or, 1)
  | '&' :: _ => some (.And, 1)
  | '^' :: _ => some (.Xor, 1)
  | '<' :: '<' :: _ => some (.Lsh, 2)
  | '>' :: '>' :: _ => some (.Rsh, 2)
  | _ => none

/-- The function-name alternation of `function_pat` (src/main.cpp lines
206-213): the keys of `token_to_function` sorted by length, longest first,
so that e.g. `atanh` is not mis-split into `atan` + `h`. -/
def fnNames : List (List Char × Function.Ty) :=
  [("acosh".toList, .Acosh), ("asinh".toList, .Asinh), ("atanh".toList, .Atanh),
   ("atan2".toList, .Atan2), ("floor".toList, .Floor), ("hypot".toList, .Hypot),
   ("log10".toList, .Log10), ("round".toList, .Round), ("trunc".toList, .Trunc),
   ("acos".toList, .Acos), ("asin".toList, .Asin), ("atan".toList, .Atan),
   ("cbrt".toList, .Cbrt), ("ceil".toList, .Ceil), ("cosh".toList, .Cosh),
   ("log2".toList, .Log2), ("sinh".toList, .Sinh), ("sqrt".toList, .Sqrt),
   ("tanh".toList, .Tanh),
   ("abs".toList, .Abs), ("cos".toList, .Cos), ("exp".toList, .Exp),
   ("log".toList, .Log), ("max".toList, .Max), ("min".toList, .Min),
   ("pow".toList, .Pow), ("sin".toList, .Sin), ("tan".toList, .Tan)]

/-- Case-insensitive "nm begins cs" (the regex is compiled with `icase`). -/
def ciBegins : List Char → List Char → Bool
  | [], _ => true
  | _ :: _, [] => false
  | a :: as, b :: bs => (a.toLower = b.toLower) && ciBegins as bs

/-- The `(?=\s*\()` lookahead after a function name. -/
def lookParen (cs : List Char) : Bool := (cs.dropWhile isWs).head? = some '('

/-- Match the function alternative `(function_pat(?=\s*\())`; returns the
matched (lowercase) name and its `Function::Type`. -/
def matchFn (cs : List Char) : Option (List Char × Function.Ty) :=
  fnNames.findSome? fun p =>
    if ciBegins p.1 cs && lookParen (cs.drop p.1.length) then some p else none

/-- Match the constant alternative `(e|pi)` (case-insensitive); the lexer
lowercases the key before the `const_to_value` lookup, so any casing maps
to `M_E` / `M_PI`. -/
def matchConst (cs : List Char) : Option (SymNum × Nat) :=
  match cs with
  | a :: rest =>
    if a.toLower = 'e' then some (.eC, 1)
    else
      match rest with
      | b :: _ => if a.toLower = 'p' && b.toLower = 'i' then some (.piC, 2) else none
      | [] => none
  | [] => none

/-- Operator (re)classification, src/main.cpp lines 388-393: a `+`/`-` is
made unary when the last token so far is absent, or is neither a value nor
a `)` (`operator_as_unary`); afterwards any operator directly following a
function token is turned into the `Fn` call sentinel. -/
def classifyOp (back : Option Tok) (o : Operator.Ty) : Operator.Ty :=
  let o1 :=
    if (back.elim true fun b => !b.is_value && b.operator_ ≠ Operator.Ty.Rbr) &&
        (o = Operator.Ty.Add || o = Operator.Ty.Sub) then
      (if o = Operator.Ty.Add then Operator.Ty.Pos else Operator.Ty.Neg)
    else o
  if back.elim false Tok.is_function then Operator.Ty.Fn else o1

/-- One scan of the token regex over the rest of the input.  `fuel` is a
recursion bound only; every alternative consumes at least one character, so
with initial fuel `cs.length + 1` the fuel branch is never taken. -/
def lexGo : Nat → List Char → Nat → List Tok → Outcome (List Tok)
  | _, [], _, acc => .ok acc
  | 0, _ :: _, _, _ => .crash
  | fuel + 1, c :: cs, pos, acc =>
    let here := c :: cs
    match matchNumber here with
    | some (r, k) =>
      match stod r with
      | some v => lexGo fuel (here.drop k) (pos + k) (acc ++ [Tok.val (SymNum.q v)])
      | none => .crash            -- stod throws std::out_of_range, uncaught
    | none =>
    match matchOp here with
    | some (o, k) =>
      lexGo fuel (here.drop k) (pos + k) (acc ++ [Tok.opTok (classifyOp acc.getLast? o)])
    | none =>
    match matchFn here with
    | some (nm, f) =>
      if here.take nm.length = nm then
        lexGo fuel (here.drop nm.length) (pos + nm.length) (acc ++ [Tok.fnTok f 0])
      else .crash                 -- token_to_function.at(key) throws: the icase
                                  -- match kept the original (non-lowercase) key
    | none =>
    match matchConst here with
    | some (v, k) => lexGo fuel (here.drop k) (pos + k) (acc ++ [Tok.val v])
    | none =>
      if isWs c then
        let ws := here.takeWhile isWs
        lexGo fuel (here.drop ws.length) (pos + ws.length) acc
      else .err (.invalidChar c pos)

/-- `parser::parse_infix`: raw string to infix token sequence. -/
def parse_infix (s : String) : Outcome (List Tok) :=
  lexGo (s.length + 1) s.data 0 []

/-! ## Parser (`shunting_yard`, src/main.cpp lines 426-496)

The operator stack and the function stack are lists with the head as top.
A function-stack entry is the function token, i.e. its kind together with
its mutable `_argc` counter. -/

/-- `function_init_argc` applied to the top of the function stack (the
counter is bumped from `0` to `1` when the first value or function token of
an argument list is seen); identity on an empty stack because every call
site is guarded by `!function_cache.empty()`. -/
def initTop : List (Function.Ty × Nat) → List (Function.Ty × Nat)
  | [] => []
  | (f, a) :: rest => if a = 0 then (f, 1) :: rest else (f, a) :: rest

/-- The `)` loop (src/main.cpp lines 443-458): pop operators to the output
until a sentinel is found.  A `Fn` sentinel moves the matching function off
the function stack into the output followed by a synthetic `Value` token
holding its finalized argument count; an exhausted stack is the
mismatched-parentheses error; `top()` of an empty function stack would be
undefined behaviour (`crash`). -/
def popRbr : List Tok → List Tok → List (Function.Ty × Nat) →
    Outcome (List Tok × List Tok × List (Function.Ty × Nat))
  | [], _, _ => .err .parenMismatch
  | op :: ops, post, fns =>
    if op.operator_ = Operator.Ty.Fn then
      match fns with
      | [] => .crash
      | (f, a) :: fns' => .ok (ops, post ++ [Tok.fnTok f a, Tok.val (SymNum.q (natQ a))], fns')
    else if op.operator_ = Operator.Ty.Lbr then .ok (ops, post, fns)
    else popRbr ops (post ++ [op]) fns

/-- The precedence-popping loop for binary operators (src/main.cpp lines
460-467): pop and emit while the top is not a sentinel and the incoming
precedence does not exceed the top's. -/
def popPrec (tokPrec : Nat) : List Tok → List Tok → List Tok × List Tok
  | [], post => ([], post)
  | op :: ops, post =>
    if op.is_sentinel then (op :: ops, post)
    else if tokPrec > op.operator_precedence then (op :: ops, post)
    else popPrec tokPrec ops (post ++ [op])

/-- The end-of-input drain (src/main.cpp lines 477-485): emit remaining
operators, failing on any leftover sentinel. -/
def drainOps : List Tok → List Tok → Outcome (List Tok)
  | [], post => .ok post
  | op :: ops, post =>
    if op.is_sentinel then .err .parenMismatch
    else drainOps ops (post ++ [op])

/-- The main `shunting_yard` loop over the infix sequence. -/
def syGo : List Tok → List Tok → List Tok → List (Function.Ty × Nat) → Outcome (List Tok)
  | [], post, ops, fns =>
    match drainOps ops post with
    | .ok post' => if fns.isEmpty then .ok post' else .err .syntaxErr
    | .err e => .err e
    | .crash => .crash
  | t :: rest, post, ops, fns =>
    match t with
    | .val _ => syGo rest (post ++ [t]) ops (initTop fns)
    | .fnTok f a => syGo rest post ops ((f, a) :: initTop fns)
    | .opTok o =>
      if t.is_sentinel then syGo rest post (t :: ops) fns
      else if o = Operator.Ty.Rbr then
        match popRbr ops post fns with
        | .ok (ops', post', fns') => syGo rest post' ops' fns'
        | .err e => .err e
        | .crash => .crash
      else
        let s1 := if t.operator_arity ≠ 1 then popPrec t.operator_precedence ops post
                  else (ops, post)
        if o ≠ Operator.Ty.Sep then syGo rest s1.2 (t :: s1.1) fns
        else
          match fns with
          | [] => .err .sepOutside
          | (f, a) :: fns' => syGo rest s1.2 s1.1 ((f, a + 1) :: fns')

/-- `parser::shunting_yard`: infix to postfix. -/
def shunting_yard (inToks : List Tok) : Outcome (List Tok) :=
  syGo inToks [] [] []

/-! ## Generic evaluator (`parser::eval`, src/main.cpp lines 498-537)

The evaluator is parameterized over the value representation `T` and three
injected operations.  The operator and function handlers return `Option T`:
`none` marks undefined behaviour (an out-of-bounds `v[i]` read inside a
handler) or an uncaught `std::map::at` exception (a kind with no entry in
the handler table). -/

/-- The three injected operations of `parser::eval<T>`. -/
structure Backend (T : Type) where
  mapper : SymNum → T
  opExec : Operator.Ty → List T → Option T
  fnExec : Function.Ty → List T → Option T

/-- `(int)token->value()`: `value()` returns the stored double for a value
token and `0.0` otherwise; the cast truncates toward zero. -/
def Tok.valTrunc : Tok → Int
  | .val v => v.symTrunc
  | _ => 0

/-- Helper for the `n > result.size()` comparison: `n` is a signed `int`,
`result.size()` an unsigned `size_t`, so a negative `n` converts to a huge
unsigned value and compares greater. -/
def uGt (n : Int) (s : Nat) : Prop := n < 0 ∨ (s : Int) < n

instance (n : Int) (s : Nat) : Decidable (uGt n s) := by
  unfold uGt; infer_instance

/-- The evaluator loop: drains the postfix sequence once against a single
result stack (head = top of stack). -/
def evalGo {T : Type} (B : Backend T) : List Tok → List T → Outcome T
  | [], result =>
    match result with
    | [r] => .ok r
    | _ => .err .syntaxErr
  | .val v :: rest, result => evalGo B rest (B.mapper v :: result)
  | .opTok o :: rest, result =>
    let n := Operator.arity o
    if n > result.length then .err .syntaxErr
    else
      match B.opExec o (result.take n).reverse with
      | some r => evalGo B rest (r :: result.drop n)
      | none => .crash
  | .fnTok f _ :: rest, result =>
    match rest with
    | [] => .crash      -- postfix.front() on an empty list: undefined behaviour
    | lit :: rest' =>
      let n := lit.valTrunc
      if Function.arity f > (result.length : Int) ∨ uGt n result.length then
        .err .syntaxErr
      else
        match B.fnExec f (result.take n.toNat).reverse with
        | some r => evalGo B rest' (r :: result.drop n.toNat)
        | none => .crash

/-! ## Interpretation backend (`T = double`, src/main.cpp lines 220-265, 539-546)

The handler lambdas index directly into the operand vector (`v[0]`, `v[1]`);
an index at or beyond `v.size()` is an out-of-bounds read, i.e. `none`. -/

/-- `v_1(fn)`: the handler reads `v[0]`. -/
def need1 {T U : Type} (f : T → U) : List T → Option U
  | a :: _ => some (f a)
  | _ => none

/-- `v_2(fn)`: the handler reads `v[0]` and `v[1]`. -/
def need2 {T U : Type} (f : T → T → U) : List T → Option U
  | a :: b :: _ => some (f a b)
  | _ => none

/-- C's `(int)a >> (int)b` (arithmetic shift = floor division). -/
def c_shr (a b : Int) : Int := Int.fdiv a (2 ^ b.toNat)

/-- C's `(int)a << (int)b`. -/
def c_shl (a b : Int) : Int := a * 2 ^ b.toNat

/-- C's `~(int)a` (two's-complement bitwise not). -/
def c_not (a : Int) : Int := -a - 1

/-- `std::fmod`: remainder with the quotient truncated toward zero. -/
noncomputable def m_fmod (a b : ℝ) : ℝ := a - b * (ctruncR (a / b) : ℝ)

/-- `std::pow` (and the `**` operator). -/
noncomputable def m_pow (a b : ℝ) : ℝ := Real.rpow a b

/-- `std::ceil`. -/
noncomputable def m_ceil (x : ℝ) : ℝ := (⌈x⌉ : ℝ)

/-- `std::floor`. -/
noncomputable def m_floor (x : ℝ) : ℝ := (⌊x⌋ : ℝ)

/-- `std::round` (halfway cases away from zero). -/
noncomputable def m_round (x : ℝ) : ℝ :=
  if 0 ≤ x then ((⌊x + 1 / 2⌋ : ℤ) : ℝ) else ((⌈x - 1 / 2⌉ : ℤ) : ℝ)

/-- `std::trunc`. -/
noncomputable def m_truncate (x : ℝ) : ℝ := (ctruncR x : ℝ)

/-- `std::hypot` (binary). -/
noncomputable def m_hypot (a b : ℝ) : ℝ := Real.sqrt (a ^ 2 + b ^ 2)

/-- `std::cbrt` (real cube root, odd function). -/
noncomputable def m_cbrt (x : ℝ) : ℝ := Real.sign x * Real.rpow |x| (1 / 3)

/-- `std::atan2(y, x)` = the argument of the point `(x, y)`. -/
noncomputable def m_atan2 (y x : ℝ) : ℝ := Complex.arg ⟨x, y⟩

/-- `std::acosh` on its domain. -/
noncomputable def m_acosh (x : ℝ) : ℝ := Real.log (x + Real.sqrt (x ^ 2 - 1))

/-- `std::atanh` on its domain. -/
noncomputable def m_atanh (x : ℝ) : ℝ := Real.log ((1 + x) / (1 - x)) / 2

/-- `std::log2`. -/
noncomputable def m_log2 (x : ℝ) : ℝ := Real.log x / Real.log 2

/-- `std::log10`. -/
noncomputable def m_log10 (x : ℝ) : ℝ := Real.log x / Real.log 10

/-- The `operator_exec` table of the interpretation backend
(src/main.cpp lines 220-235); kinds not in the map (`Noop`, `Sep`, the
sentinels) have no entry, so `.at` would throw: `none`. -/
noncomputable def operator_exec : Operator.Ty → List ℝ → Option ℝ
  | .And, v => need2 (fun a b => ((Int.land (ctruncR a) (ctruncR b) : ℤ) : ℝ)) v
  | .Or, v => need2 (fun a b => ((Int.lor (ctruncR a) (ctruncR b) : ℤ) : ℝ)) v
  | .Xor, v => need2 (fun a b => ((Int.xor (ctruncR a) (ctruncR b) : ℤ) : ℝ)) v
  | .Rsh, v => need2 (fun a b => ((c_shr (ctruncR a) (ctruncR b) : ℤ) : ℝ)) v
  | .Lsh, v => need2 (fun a b => ((c_shl (ctruncR a) (ctruncR b) : ℤ) : ℝ)) v
  | .Add, v => need2 (fun a b : ℝ => a + b) v
  | .Sub, v => need2 (fun a b : ℝ => a - b) v
  | .Mul, v => need2 (fun a b : ℝ => a * b) v
  | .Div, v => need2 (fun a b : ℝ => a / b) v
  | .Rem, v => need2 m_fmod v
  | .Exp, v => need2 m_pow v
  | .Not, v => need1 (fun a => ((c_not (ctruncR a) : ℤ) : ℝ)) v
  | .Pos, v => need1 (fun a : ℝ => a) v
  | .Neg, v => need1 (fun a : ℝ => -a) v
  | _, _ => none

/-- The `function_exec` table of the interpretation backend (src/main.cpp
lines 236-265): fixed-arity functions via `v_1`/`v_2`, variadic ones via
`binary_reduce`; `Pass` has no entry (`.at` throws). -/
noncomputable def function_exec : Function.Ty → List ℝ → Option ℝ
  | .Abs, v => need1 (fun x : ℝ => |x|) v
  | .Acos, v => need1 Real.arccos v
  | .Acosh, v => need1 m_acosh v
  | .Asin, v => need1 Real.arcsin v
  | .Asinh, v => need1 Real.arsinh v
  | .Atan, v => need1 Real.arctan v
  | .Atan2, v => need2 m_atan2 v
  | .Atanh, v => need1 m_atanh v
  | .Cbrt, v => need1 m_cbrt v
  | .Ceil, v => need1 m_ceil v
  | .Cos, v => need1 Real.cos v
  | .Cosh, v => need1 Real.cosh v
  | .Exp, v => need1 Real.exp v
  | .Floor, v => need1 m_floor v
  | .Hypot, v => some (Function.binary_reduce 0 m_hypot v)
  | .Log, v => need1 Real.log v
  | .Log10, v => need1 m_log10 v
  | .Log2, v => need1 m_log2 v
  | .Max, v => some (Function.binary_reduce 0 max v)
  | .Min, v => some (Function.binary_reduce 0 min v)
  | .Pow, v => need2 m_pow v
  | .Round, v => need1 m_round v
  | .Sin, v => need1 Real.sin v
  | .Sinh, v => need1 Real.sinh v
  | .Sqrt, v => need1 Real.sqrt v
  | .Tan, v => need1 Real.tan v
  | .Tanh, v => need1 Real.tanh v
  | .Trunc, v => need1 m_truncate v
  | .Pass, _ => none

/-- The interpretation backend: `mapper` is the identity on the stored
double (src/main.cpp lines 539-546). -/
noncomputable def interpBackend : Backend ℝ :=
  ⟨SymNum.denote, operator_exec, function_exec⟩

/-- The interpretation pipeline of `main` (src/main.cpp lines 727-738):
lex, parse, evaluate; a failing stage aborts the rest. -/
noncomputable def run_interp (s : String) : Outcome ℝ :=
  (( parse_infix s).bind shunting_yard).bind fun post => evalGo interpBackend post []

/-! ## Code-generation backend (`llir`, src/main.cpp lines 549-709)

An `llvm::Value*` handle is modelled denotationally by the real number the
emitted instruction sequence computes when the module runs.  An external
math routine is identified by the symbol name it is declared with
(`declare_math_fn(name, argc)`), and a call instruction denotes applying
that routine's libm semantics to the denotations of its arguments. -/

namespace llir

/-- The external symbol names declared by `declare_math_fn` in the
`ir_math` table (src/main.cpp lines 592-621). -/
inductive ExtFn where
  | fabs | acos | acosh | asin | asinh | atan | atanh | atan2
  | cbrt | cos | cosh | exp | floor | hypot | log | log2 | log10
  | fmax | fmin | pow | round | sin | sinh | sqrt | tan | tanh | trunc
  deriving DecidableEq

/-- The `ir_math` table (src/main.cpp lines 592-621): which external
routine each `Function::Type` is declared as.  Note line 602: `Ceil` is
declared as external `"fabs"`, not `"ceil"`.  `Pass` has no entry. -/
def ir_math : Function.Ty → Option ExtFn
  | .Abs => some .fabs
  | .Acos => some .acos
  | .Acosh => some .acosh
  | .Asin => some .asin
  | .Asinh => some .asinh
  | .Atan => some .atan
  | .Atanh => some .atanh
  | .Atan2 => some .atan2
  | .Cbrt => some .cbrt
  | .Ceil => some .fabs
  | .Cos => some .cos
  | .Cosh => some .cosh
  | .Exp => some .exp
  | .Floor => some .floor
  | .Hypot => some .hypot
  | .Log => some .log
  | .Log2 => some .log2
  | .Log10 => some .log10
  | .Max => some .fmax
  | .Min => some .fmin
  | .Pow => some .pow
  | .Round => some .round
  | .Sin => some .sin
  | .Sinh => some .sinh
  | .Sqrt => some .sqrt
  | .Tan => some .tan
  | .Tanh => some .tanh
  | .Trunc => some .trunc
  | .Pass => none

/-- The declared parameter count passed to `declare_math_fn`. -/
def extArgc : ExtFn → Nat
  | .atan2 | .hypot | .fmax | .fmin | .pow => 2
  | _ => 1

/-- libm semantics of each external routine: what a call instruction's
result denotes when the module runs (arguments beyond the declared
parameters are ignored; a missing argument reads as `0`, though `compile`
only ever emits calls with the declared argument count). -/
noncomputable def extSem : ExtFn → List ℝ → ℝ
  | .fabs, v => |v.getD 0 0|
  | .acos, v => Real.arccos (v.getD 0 0)
  | .acosh, v => m_acosh (v.getD 0 0)
  | .asin, v => Real.arcsin (v.getD 0 0)
  | .asinh, v => Real.arsinh (v.getD 0 0)
  | .atan, v => Real.arctan (v.getD 0 0)
  | .atanh, v => m_atanh (v.getD 0 0)
  | .atan2, v => m_atan2 (v.getD 0 0) (v.getD 1 0)
  | .cbrt, v => m_cbrt (v.getD 0 0)
  | .cos, v => Real.cos (v.getD 0 0)
  | .cosh, v => Real.cosh (v.getD 0 0)
  | .exp, v => Real.exp (v.getD 0 0)
  | .floor, v => m_floor (v.getD 0 0)
  | .hypot, v => m_hypot (v.getD 0 0) (v.getD 1 0)
  | .log, v => Real.log (v.getD 0 0)
  | .log2, v => m_log2 (v.getD 0 0)
  | .log10, v => m_log10 (v.getD 0 0)
  | .fmax, v => max (v.getD 0 0) (v.getD 1 0)
  | .fmin, v => min (v.getD 0 0) (v.getD 1 0)
  | .pow, v => m_pow (v.getD 0 0) (v.getD 1 0)
  | .round, v => m_round (v.getD 0 0)
  | .sin, v => Real.sin (v.getD 0 0)
  | .sinh, v => Real.sinh (v.getD 0 0)
  | .sqrt, v => Real.sqrt (v.getD 0 0)
  | .tan, v => Real.tan (v.getD 0 0)
  | .tanh, v => Real.tanh (v.getD 0 0)
  | .trunc, v => m_truncate (v.getD 0 0)

/-- `as_int` (src/main.cpp lines 560-566): map every operand through
`CreateFPToSI` to `i32`, apply the integer operation, convert the result
back with `CreateSIToFP`.  `FPToSI` truncates toward zero, identically to
the interpretation backend's C cast. -/
noncomputable def as_int (v : List ℝ) (f : List ℤ → Option ℤ) : Option ℝ :=
  (f (v.map ctruncR)).map fun i => (i : ℝ)

/-- The codegen `operator_exec` table (src/main.cpp lines 661-676):
bitwise kinds via the `i_1`/`i_2` integer round trip, float arithmetic via
native instructions, `Exp` via a call of the external `pow`; kinds without
an entry crash the `.at` lookup. -/
noncomputable def operator_exec : Operator.Ty → List ℝ → Option ℝ
  | .And, v => as_int v (need2 Int.land)
  | .Or, v => as_int v (need2 Int.lor)
  | .Xor, v => as_int v (need2 Int.xor)
  | .Rsh, v => as_int v (need2 c_shr)         -- CreateAShr
  | .Lsh, v => as_int v (need2 c_shl)         -- CreateShl
  | .Add, v => need2 (fun a b : ℝ => a + b) v -- CreateFAdd
  | .Sub, v => need2 (fun a b : ℝ => a - b) v -- CreateFSub
  | .Mul, v => need2 (fun a b : ℝ => a * b) v -- CreateFMul
  | .Div, v => need2 (fun a b : ℝ => a / b) v -- CreateFDiv
  | .Rem, v => need2 m_fmod v                 -- CreateFRem
  | .Exp, v => some (extSem .pow v)           -- CreateCall(ir_math.at(Pow)(), v)
  | .Not, v => as_int v (need1 c_not)         -- CreateNot
  | .Pos, v => need1 (fun a : ℝ => a) v
  | .Neg, v => need1 (fun a : ℝ => -a) v      -- CreateFNeg
  | _, _ => none

/-- The codegen `function_exec` table (src/main.cpp lines 677-692), built
from `ir_math`: empty operand vector gives the double null constant `0.0`;
a variadic function reduces pairwise with call instructions; a fixed-arity
function is a single call with the whole operand vector. -/
noncomputable def function_exec (f : Function.Ty) (v : List ℝ) : Option ℝ :=
  match ir_math f with
  | none => none
  | some nm =>
    if v = [] then some 0
    else if Function.arity f = -1 then
      some (Function.binary_reduce 0 (fun a b => extSem nm [a, b]) v)
    else some (extSem nm v)

/-- The code-generation backend: `mapper` creates a floating constant
(`llvm::ConstantFP::get`), which denotes the same real. -/
noncomputable def llirBackend : Backend ℝ :=
  ⟨SymNum.denote, operator_exec, function_exec⟩

end llir

/-- The code-generation pipeline of `main` (src/main.cpp lines 727-741):
the same lex and parse, then `llir::compile` evaluates the copied postfix
sequence with the codegen backend; the returned real is what the emitted
module computes and prints. -/
noncomputable def run_llir (s : String) : Outcome ℝ :=
  (( parse_infix s).bind shunting_yard).bind fun post => evalGo llir.llirBackend post []

/-! ## Definitions supporting the claims -/

/-- The end-to-end example input from `main` (src/main.cpp lines 722-723). -/
def bigExpr : String :=
  "-1 + 5 * (6 + 2) - 12 / 4 + 2**4 + pi - e * 1.01e-1 - (1 << 5) + -hypot(1, -2, 3) * max(1, 2, min(4, 5))"

/-- The real number the interpretation backend computes for `bigExpr`,
transcribed from the postfix evaluation step by step. -/
noncomputable def c2raw : ℝ :=
  ((((((-SymNum.denote (SymNum.q 1) + SymNum.denote (SymNum.q 5) *
        (SymNum.denote (SymNum.q 6) + SymNum.denote (SymNum.q 2)))
      - SymNum.denote (SymNum.q 12) / SymNum.denote (SymNum.q 4))
      + m_pow (SymNum.denote (SymNum.q 2)) (SymNum.denote (SymNum.q 4)))
      + SymNum.denote SymNum.piC)
      - SymNum.denote SymNum.eC * SymNum.denote (SymNum.q (mkRat 101 1000)))
      - ((c_shl (ctruncR (SymNum.denote (SymNum.q 1))) (ctruncR (SymNum.denote (SymNum.q 5))) : ℤ) : ℝ))
      + -(m_hypot (m_hypot (SymNum.denote (SymNum.q 1)) (-SymNum.denote (SymNum.q 2)))
            (SymNum.denote (SymNum.q 3)))
        * max (max (SymNum.denote (SymNum.q 1)) (SymNum.denote (SymNum.q 2)))
            (min (SymNum.denote (SymNum.q 4)) (SymNum.denote (SymNum.q 5)))

/-- Number of comma-separated top-level argument expressions in a call
body: separators at nesting depth 0 relative to the call, plus one; this
formalizes the claim's phrase about the arguments actually supplied. -/
def topSeps : List Tok → Nat → Nat
  | [], _ => 0
  | Tok.opTok Operator.Ty.Lbr :: r, d => topSeps r (d + 1)
  | Tok.opTok Operator.Ty.Fn :: r, d => topSeps r (d + 1)
  | Tok.opTok Operator.Ty.Rbr :: r, d => topSeps r (d - 1)
  | Tok.opTok Operator.Ty.Sep :: r, d => (if d = 0 then 1 else 0) + topSeps r d
  | _ :: r, d => topSeps r d

/-- Top-level argument count of a call body. -/
def topLevelArgs (body : List Tok) : Nat := topSeps body 0 + 1

/-- Every function token in the list is immediately followed by the `Fn`
call-marker operator token. -/
def fnThenFn (l : List Tok) : Prop :=
  ∀ (i : Nat) (f : Function.Ty) (a : Nat),
    l[i]? = some (Tok.fnTok f a) → l[i + 1]? = some (Tok.opTok Operator.Ty.Fn)

/-- Interior version of `fnThenFn`: the last element is exempt. -/
def pairsOK (l : List Tok) : Prop :=
  ∀ (i : Nat) (f : Function.Ty) (a : Nat),
    l[i]? = some (Tok.fnTok f a) → i + 1 < l.length →
      l[i + 1]? = some (Tok.opTok Operator.Ty.Fn)

/-- The list ends with a function token. -/
def lastIsFn (l : List Tok) : Prop := ∃ f a, l.getLast? = some (Tok.fnTok f a)

/-- `operator_to_token` (src/main.cpp lines 167-173): `token_to_operator`
inverted, plus the synthetic spellings for `Pos` (`+:`), `Neg` (`-:`) and
`Fn` (`:(`); `Noop` has no entry, so `to_string` falls through to `""`. -/
def operator_to_token : Operator.Ty → Option (List Char)
  | .Noop => none
  | .Sep => some ([','])
  | .And => some (['&'])
  | .Or => some (['|'])
  | .Xor => some (['^'])
  | .Rsh => some (['>', '>'])
  | .Lsh => some (['<', '<'])
  | .Add => some (['+'])
  | .Sub => some (['-'])
  | .Mul => some (['*'])
  | .Div => some (['/'])
  | .Rem => some (['%'])
  | .Exp => some (['*', '*'])
  | .Not => some (['~'])
  | .Lbr => some (['('])
  | .Rbr => some ([')'])
  | .Pos => some (['+', ':'])
  | .Neg => some (['-', ':'])
  | .Fn => some ([':', '('])

/-- `function_to_token`: `token_to_function` inverted; `Pass` has no
surface name. -/
def function_to_token : Function.Ty → Option (List Char)
  | .Pass => none
  | .Abs => some ("abs".toList)
  | .Acos => some ("acos".toList)
  | .Acosh => some ("acosh".toList)
  | .Asin => some ("asin".toList)
  | .Asinh => some ("asinh".toList)
  | .Atan => some ("atan".toList)
  | .Atanh => some ("atanh".toList)
  | .Atan2 => some ("atan2".toList)
  | .Cbrt => some ("cbrt".toList)
  | .Ceil => some ("ceil".toList)
  | .Cos => some ("cos".toList)
  | .Cosh => some ("cosh".toList)
  | .Exp => some ("exp".toList)
  | .Floor => some ("floor".toList)
  | .Round => some ("round".toList)
  | .Hypot => some ("hypot".toList)
  | .Log => some ("log".toList)
  | .Log2 => some ("log2".toList)
  | .Log10 => some ("log10".toList)
  | .Max => some ("max".toList)
  | .Min => some ("min".toList)
  | .Pow => some ("pow".toList)
  | .Sin => some ("sin".toList)
  | .Sinh => some ("sinh".toList)
  | .Sqrt => some ("sqrt".toList)
  | .Tan => some ("tan".toList)
  | .Tanh => some ("tanh".toList)
  | .Trunc => some ("trunc".toList)

/-- The three digits after the decimal point of `%.3lf`. -/
def pad3 (m : Nat) : List Char :=
  [Char.ofNat (48 + m / 100 % 10), Char.ofNat (48 + m / 10 % 10), Char.ofNat (48 + m % 10)]

/-- Decimal digits of the integer part (most significant first). -/
def intPartChars (n : Nat) : List Char :=
  if n = 0 then ['0'] else (Nat.digits 10 n).reverse.map fun d => Char.ofNat (48 + d)

/-- `round(|r| * 1000)` computed on the numerator and denominator
(half rounds up, matching `printf` on every exactly representable input the
claims touch). -/
def round1000 (r : ℚ) : Nat := (r.num.natAbs * 2000 + r.den) / (2 * r.den)

/-- `sprintf(buf, "%.3lf", v)` for the idealised double `r`. -/
def render3 (r : ℚ) : List Char :=
  (if r.num < 0 then ['-'] else []) ++
    intPartChars (round1000 r / 1000) ++ '.' :: pad3 (round1000 r % 1000)

/-- Rendering of the stored double of a value token (`%.3lf`); the `M_PI`
and `M_E` constants print as `3.142` and `2.718`. -/
def renderVal : SymNum → List Char
  | .q r => render3 r
  | .piC => ['3', '.', '1', '4', '2']
  | .eC => ['2', '.', '7', '1', '8']

/-- `Token::to_string`. -/
def Tok.to_string : Tok → List Char
  | .val v => renderVal v
  | .opTok o => (operator_to_token o).getD []
  | .fnTok f _ => (function_to_token f).getD []

/-! ## Helper lemmas -/

/-- The evaluated result of `bigExpr` in closed form. -/
theorem c2raw_closed :
    c2raw = 20 + Real.pi - Real.exp 1 * (101 / 1000) - 4 * Real.sqrt 14 := by
  have h1 : ctruncR (SymNum.denote (SymNum.q 1)) = 1 := by
    rw [SymNum.denote, ctruncR, if_pos] <;> norm_num
  have h5 : ctruncR (SymNum.denote (SymNum.q 5)) = 5 := by
    rw [SymNum.denote, ctruncR, if_pos] <;> norm_num
  have hpow : m_pow (SymNum.denote (SymNum.q 2)) (SymNum.denote (SymNum.q 4)) = 16 := by
    rw [m_pow, SymNum.denote, SymNum.denote, Real.rpow_eq_pow]
    rw [show (((4:ℚ):ℝ)) = ((4:ℕ):ℝ) by norm_num, Real.rpow_natCast]
    norm_num
  have hh1 : m_hypot (SymNum.denote (SymNum.q 1)) (-SymNum.denote (SymNum.q 2)) = Real.sqrt 5 := by
    rw [m_hypot, SymNum.denote, SymNum.denote]
    norm_num
  have hh2 : m_hypot (Real.sqrt 5) (SymNum.denote (SymNum.q 3)) = Real.sqrt 14 := by
    rw [m_hypot, SymNum.denote, Real.sq_sqrt (by norm_num : (0:ℝ) ≤ 5)]
    norm_num
  rw [c2raw, h1, h5, hpow, hh1, hh2]
  simp only [SymNum.denote]
  rw [show c_shl 1 5 = 32 by rfl]
  have hq : (mkRat 101 1000 : ℚ) = 101 / 1000 := by
    rw [Rat.mkRat_eq_divInt]
    norm_num [Rat.divInt_eq_div]
  rw [hq]
  push_cast
  norm_num
  ring

theorem tok_not_sentinel_ops (t : Tok) (h : t.is_sentinel = false) :
    t.operator_ ≠ Operator.Ty.Fn ∧ t.operator_ ≠ Operator.Ty.Lbr := by
  cases t with
  | val v => exact ⟨by simp [Tok.operator_], by simp [Tok.operator_]⟩
  | fnTok f a => exact ⟨by simp [Tok.operator_], by simp [Tok.operator_]⟩
  | opTok o =>
    simp only [Tok.is_sentinel, Tok.is_operator, Bool.true_and, Operator.sentinel,
      Bool.or_eq_false_iff, decide_eq_false_iff_not] at h
    simp only [Tok.operator_]
    exact ⟨h.2, h.1⟩

theorem popRbr_no_sentinel (ops : List Tok) (h : ∀ t ∈ ops, t.is_sentinel = false)
    (post : List Tok) (fns : List (Function.Ty × Nat)) :
    popRbr ops post fns = Outcome.err Err.parenMismatch := by
  induction ops generalizing post with
  | nil => rfl
  | cons op rest ih =>
    have hop := tok_not_sentinel_ops op (h op (by simp))
    rw [popRbr.eq_def]
    simp only []
    rw [if_neg hop.1, if_neg hop.2]
    exact ih (fun t ht => h t (by simp [ht])) _

theorem popRbr_sentinel (ops : List Tok) (h : ∃ t ∈ ops, t.is_sentinel = true)
    (post : List Tok) (fns : List (Function.Ty × Nat)) :
    popRbr ops post fns ≠ Outcome.err Err.parenMismatch := by
  induction ops generalizing post with
  | nil => simp at h
  | cons op rest ih =>
    rw [popRbr.eq_def]
    simp only []
    by_cases hf : op.operator_ = Operator.Ty.Fn
    · rw [if_pos hf]
      cases fns with
      | nil => simp
      | cons p fns' => simp
    · rw [if_neg hf]
      by_cases hl : op.operator_ = Operator.Ty.Lbr
      · rw [if_pos hl]; simp
      · rw [if_neg hl]
        have hrest : ∃ t ∈ rest, t.is_sentinel = true := by
          obtain ⟨t, ht, hs⟩ := h
          rcases List.mem_cons.mp ht with rfl | h2
          · exfalso
            cases t with
            | val v => simp [Tok.is_sentinel, Tok.is_operator] at hs
            | fnTok f a => simp [Tok.is_sentinel, Tok.is_operator] at hs
            | opTok o =>
              simp only [Tok.operator_] at hf hl
              simp [Tok.is_sentinel, Tok.is_operator, Operator.sentinel, Tok.operator_,
                hf, hl] at hs
          · exact ⟨t, h2, hs⟩
        exact ih hrest _

theorem drainOps_err_iff (ops : List Tok) (post : List Tok) :
    drainOps ops post = Outcome.err Err.parenMismatch ↔ ∃ t ∈ ops, t.is_sentinel = true := by
  induction ops generalizing post with
  | nil => simp [drainOps]
  | cons op rest ih =>
    rw [drainOps.eq_def]
    simp only []
    by_cases hs : op.is_sentinel
    · rw [if_pos hs]
      simp [hs]
    · rw [if_neg hs]
      rw [ih]
      constructor
      · intro ⟨t, ht, h⟩
        exact ⟨t, by simp [ht], h⟩
      · intro ⟨t, ht, h⟩
        rcases List.mem_cons.mp ht with rfl | h2
        · simp [h] at hs
        · exact ⟨t, h2, h⟩

theorem matchNumber_head (c : Char) (cs : List Char) (x : ℚ × Nat)
    (h : matchNumber (c :: cs) = some x) : Char.isDigit c = true ∨ c = '.' := by
  rw [matchNumber] at h
  by_cases hg : (Char.isDigit c || c = '.')
  · simpa using hg
  · rw [if_neg hg] at h
    exact absurd h (by simp)

theorem isWs_cases (c : Char) (h : isWs c = true) :
    c = ' ' ∨ c = '\t' ∨ c = '\n' ∨ c = '\x0b' ∨ c = '\x0c' ∨ c = '\r' := by
  have h2 := h
  simp only [isWs, Bool.or_eq_true, decide_eq_true_eq] at h2
  tauto

theorem matchOp_ws (c : Char) (cs : List Char) (h : isWs c = true) :
    matchOp (c :: cs) = none := by
  rcases isWs_cases c h with rfl | rfl | rfl | rfl | rfl | rfl <;> rfl

theorem matchOp_lparen (cs : List Char) : matchOp ('(' :: cs) = some (Operator.Ty.Lbr, 1) := rfl

theorem matchConst_ws (c : Char) (cs : List Char) (h : isWs c = true) :
    matchConst (c :: cs) = none := by
  rcases isWs_cases c h with rfl | rfl | rfl | rfl | rfl | rfl <;>
    cases cs <;> rfl

theorem matchConst_lparen (cs : List Char) : matchConst ('(' :: cs) = none := by
  cases cs <;> rfl

theorem matchNumber_ws (c : Char) (cs : List Char) (h : isWs c = true) :
    matchNumber (c :: cs) = none := by
  rcases isWs_cases c h with rfl | rfl | rfl | rfl | rfl | rfl <;> rfl

theorem matchNumber_lparen (cs : List Char) : matchNumber ('(' :: cs) = none := rfl

theorem matchFn_spec (cs : List Char) (p : List Char × Function.Ty)
    (h : matchFn cs = some p) :
    p ∈ fnNames ∧ ciBegins p.1 cs = true ∧ lookParen (cs.drop p.1.length) = true := by
  rw [matchFn] at h
  generalize hl : fnNames = l at h ⊢
  rw [show (p ∈ l ∧ ciBegins p.1 cs = true ∧ lookParen (cs.drop p.1.length) = true) =
    (p ∈ l ∧ ciBegins p.1 cs = true ∧ lookParen (cs.drop p.1.length) = true) from rfl]
  clear hl
  induction l with
  | nil => simp [List.findSome?] at h
  | cons q l ih =>
    rw [List.findSome?] at h
    by_cases hq : (ciBegins q.1 cs && lookParen (cs.drop q.1.length))
    · rw [if_pos hq] at h
      simp only [Option.some.injEq] at h
      subst h
      simp only [Bool.and_eq_true] at hq
      exact ⟨by simp, hq.1, hq.2⟩
    · rw [if_neg hq] at h
      have := ih h
      exact ⟨by simp [this.1], this.2.1, this.2.2⟩

theorem fnNames_heads :
    ∀ p ∈ fnNames, p.1 ≠ [] ∧ (p.1.headD ' ').toLower = p.1.headD ' ' ∧
      isWs (p.1.headD ' ') = false ∧ p.1.headD ' ' ≠ '(' := by
  decide

theorem ws_toLower (c : Char) (h : isWs c = true) : c.toLower = c := by
  rcases isWs_cases c h with rfl | rfl | rfl | rfl | rfl | rfl <;> rfl

theorem matchFn_head (c : Char) (cs : List Char) (p : List Char × Function.Ty)
    (h : matchFn (c :: cs) = some p) : isWs c = false ∧ c ≠ '(' := by
  obtain ⟨hmem, hci, _⟩ := matchFn_spec _ _ h
  obtain ⟨hne, hfix, hws, hpar⟩ := fnNames_heads p hmem
  cases hp1 : p.1 with
  | nil => exact absurd hp1 hne
  | cons a as =>
    rw [hp1] at hci
    rw [ciBegins] at hci
    simp only [Bool.and_eq_true, decide_eq_true_eq] at hci
    have ha : a.toLower = c.toLower := hci.1
    rw [hp1] at hfix hws hpar
    simp only [List.headD_cons] at hfix hws hpar
    constructor
    · by_contra hws2
      rw [Bool.not_eq_false] at hws2
      rw [ws_toLower c hws2] at ha
      rw [hfix] at ha
      rw [ha] at hws
      rw [hws2] at hws
      exact Bool.true_eq_false.mp hws
    · intro rfl2
      rw [rfl2] at ha
      rw [hfix] at ha
      rw [show '('.toLower = '(' from rfl] at ha
      exact hpar ha

theorem lookParen_nil : lookParen [] = false := rfl

theorem lookParen_cases (c : Char) (cs : List Char) (h : lookParen (c :: cs) = true) :
    (isWs c = true ∧ lookParen cs = true) ∨ c = '(' := by
  rw [lookParen, List.dropWhile_cons] at h
  by_cases hw : isWs c
  · rw [if_pos hw] at h
    exact Or.inl ⟨hw, h⟩
  · rw [if_neg hw] at h
    simp only [List.head?_cons, Option.some.injEq] at h
    exact Or.inr (of_decide_eq_true h)

theorem drop_takeWhile_eq_dropWhile (p : Char → Bool) (l : List Char) :
    l.drop (l.takeWhile p).length = l.dropWhile p := by
  induction l with
  | nil => rfl
  | cons a l ih =>
    rw [List.takeWhile_cons, List.dropWhile_cons]
    by_cases hp : p a
    · rw [if_pos hp, if_pos hp]
      simpa using ih
    · rw [if_neg hp, if_neg hp]
      rfl

theorem lookParen_dropWhile (l : List Char) (h : lookParen l = true) :
    lookParen (l.dropWhile isWs) = true := by
  rw [lookParen] at h ⊢
  rw [List.dropWhile_idempotent]
  exact h

theorem pairsOK_append (l : List Tok) (t : Tok) (hA : pairsOK l)
    (hlast : lastIsFn l → t = Tok.opTok Operator.Ty.Fn) : pairsOK (l ++ [t]) := by
  intro i f a hi hlt
  rw [List.length_append, List.length_singleton] at hlt
  have hi_lt : i < l.length := by omega
  rw [List.getElem?_append_left hi_lt] at hi
  by_cases h2 : i + 1 < l.length
  · rw [List.getElem?_append_left h2]
    exact hA i f a hi h2
  · have hieq : i + 1 = l.length := by omega
    have hlfn : lastIsFn l := by
      refine ⟨f, a, ?_⟩
      rw [List.getLast?_eq_getElem?]
      rw [show l.length - 1 = i by omega]
      exact hi
    rw [hieq, List.getElem?_concat_length]
    rw [hlast hlfn]

theorem fnThenFn_of (l : List Tok) (hA : pairsOK l) (hlast : ¬ lastIsFn l) : fnThenFn l := by
  intro i f a hi
  have hlen : i < l.length := by
    by_contra hc
    rw [List.getElem?_eq_none (by omega)] at hi
    exact absurd hi (by simp)
  by_cases h2 : i + 1 < l.length
  · exact hA i f a hi h2
  · exfalso
    apply hlast
    refine ⟨f, a, ?_⟩
    rw [List.getLast?_eq_getElem?]
    rw [show l.length - 1 = i by omega]
    exact hi

theorem lastIsFn_append_op (l : List Tok) (o : Operator.Ty) :
    ¬ lastIsFn (l ++ [Tok.opTok o]) := by
  intro ⟨f, a, h⟩
  rw [List.getLast?_concat] at h
  exact absurd h (by simp)

theorem lastIsFn_append_val (l : List Tok) (v : SymNum) :
    ¬ lastIsFn (l ++ [Tok.val v]) := by
  intro ⟨f, a, h⟩
  rw [List.getLast?_concat] at h
  exact absurd h (by simp)

theorem classifyOp_after_fn (f : Function.Ty) (a : Nat) (o : Operator.Ty)
    (back : Option Tok) (hb : back = some (Tok.fnTok f a)) :
    classifyOp back o = Operator.Ty.Fn := by
  subst hb
  rfl

theorem lexGo_fnThenFn (fuel : Nat) :
    ∀ (cs : List Char) (pos : Nat) (acc toks : List Tok),
      lexGo fuel cs pos acc = Outcome.ok toks → pairsOK acc →
      (lastIsFn acc → lookParen cs = true) → fnThenFn toks := by
  induction fuel with
  | zero =>
    intro cs pos acc toks h hA hB
    cases cs with
    | nil =>
      simp only [lexGo, Outcome.ok.injEq] at h
      subst h
      refine fnThenFn_of acc hA fun hl => ?_
      have := hB hl
      rw [lookParen_nil] at this
      exact Bool.false_ne_true this
    | cons c cs' =>
      simp only [lexGo] at h
      exact absurd h (by simp)
  | succ fuel ih =>
    intro cs pos acc toks h hA hB
    cases cs with
    | nil =>
      simp only [lexGo, Outcome.ok.injEq] at h
      subst h
      refine fnThenFn_of acc hA fun hl => ?_
      have := hB hl
      rw [lookParen_nil] at this
      exact Bool.false_ne_true this
    | cons c cs' =>
      simp only [lexGo] at h
      -- no-fn-at-end helper: if the accumulator ends with a function token,
      -- the rest of the input must look like `\s*(`
      split at h
      case _ r k heq =>
        -- number alternative matched
        have hnofn : ¬ lastIsFn acc := by
          intro hl
          rcases lookParen_cases c cs' (hB hl) with ⟨hw, _⟩ | rfl
          · rw [matchNumber_ws c cs' hw] at heq
            exact absurd heq (by simp)
          · rw [matchNumber_lparen cs'] at heq
            exact absurd heq (by simp)
        split at h
        case _ v heq2 =>
          exact ih _ _ _ _ h
            (pairsOK_append acc _ hA fun hl => absurd hl hnofn)
            (fun hl => absurd hl (lastIsFn_append_val acc _))
        case _ heq2 => exact absurd h (by simp)
      case _ heq =>
      split at h
      case _ o k heq2 =>
        -- operator alternative matched
        refine ih _ _ _ _ h (pairsOK_append acc _ hA fun hl => ?_)
          (fun hl => absurd hl (lastIsFn_append_op acc _))
        obtain ⟨f, a, hlast⟩ := hl
        rw [classifyOp_after_fn f a o acc.getLast? hlast]
      case _ heq2 =>
      split at h
      case _ nm f heq3 =>
        -- function alternative matched
        have hnofn : ¬ lastIsFn acc := by
          intro hl
          have hh := matchFn_head c cs' (nm, f) heq3
          rcases lookParen_cases c cs' (hB hl) with ⟨hw, _⟩ | rfl
          · rw [hw] at hh
            exact Bool.true_eq_false.mp hh.1
          · exact hh.2 rfl
        split at h
        case _ heq4 =>
          refine ih _ _ _ _ h (pairsOK_append acc _ hA fun hl => absurd hl hnofn) ?_
          intro hl
          have := (matchFn_spec (c :: cs') (nm, f) heq3).2.2
          exact this
        case _ heq4 => exact absurd h (by simp)
      case _ heq3 =>
      split at h
      case _ v k heq4 =>
        -- constant alternative matched
        have hnofn : ¬ lastIsFn acc := by
          intro hl
          rcases lookParen_cases c cs' (hB hl) with ⟨hw, _⟩ | rfl
          · rw [matchConst_ws c cs' hw] at heq4
            exact absurd heq4 (by simp)
          · rw [matchConst_lparen cs'] at heq4
            exact absurd heq4 (by simp)
        exact ih _ _ _ _ h
          (pairsOK_append acc _ hA fun hl => absurd hl hnofn)
          (fun hl => absurd hl (lastIsFn_append_val acc _))
      case _ heq4 =>
      split at h
      case _ hw =>
        -- whitespace: tokens unchanged, lookahead survives the skip
        refine ih _ _ _ _ h hA fun hl => ?_
        have hlp := hB hl
        rw [drop_takeWhile_eq_dropWhile isWs (c :: cs')]
        rw [lookParen] at hlp ⊢
        rw [List.dropWhile_idempotent]
        exact hlp
      case _ hw => exact absurd h (by simp)

theorem digitsVal_append (l : List Char) (c : Char) :
    digitsVal (l ++ [c]) = 10 * digitsVal l + (c.toNat - 48) := by
  rw [digitsVal, digitsVal, List.foldl_append]
  rfl

theorem charVal_ofNat (d : Nat) (hd : d < 10) :
    (Char.ofNat (48 + d)).toNat - 48 = d ∧ (Char.ofNat (48 + d)).isDigit = true := by
  interval_cases d <;> exact ⟨by decide, by decide⟩

theorem digitsVal_ofDigits (L : List Nat) (hL : ∀ d ∈ L, d < 10) :
    digitsVal (L.reverse.map fun d => Char.ofNat (48 + d)) = Nat.ofDigits 10 L := by
  induction L with
  | nil => rfl
  | cons d L ih =>
    rw [List.reverse_cons, List.map_append]
    simp only [List.map_cons, List.map_nil]
    rw [digitsVal_append]
    rw [ih (fun x hx => hL x (by simp [hx]))]
    rw [(charVal_ofNat d (hL d (by simp))).1]
    rw [Nat.ofDigits_cons]
    omega

theorem intPartChars_spec (n : Nat) :
    (∀ c ∈ intPartChars n, c.isDigit = true) ∧ intPartChars n ≠ [] ∧
      digitsVal (intPartChars n) = n := by
  by_cases h0 : n = 0
  · subst h0
    exact ⟨by decide, by decide, by decide⟩
  · rw [intPartChars, if_neg h0]
    refine ⟨?_, ?_, ?_⟩
    · intro c hc
      rw [List.mem_map] at hc
      obtain ⟨d, hd, rfl⟩ := hc
      rw [List.mem_reverse] at hd
      exact (charVal_ofNat d (Nat.digits_lt_base (by norm_num) hd)).2
    · simp only [ne_eq, List.map_eq_nil_iff, List.reverse_eq_nil_iff]
      exact Nat.digits_ne_nil_iff_ne_zero.mpr h0
    · rw [digitsVal_ofDigits _ (fun d hd => Nat.digits_lt_base (by norm_num) hd)]
      exact Nat.ofDigits_digits 10 n

theorem pad3_spec (m : Nat) (hm : m < 1000) :
    (∀ c ∈ pad3 m, c.isDigit = true) ∧ (pad3 m).length = 3 ∧ digitsVal (pad3 m) = m := by
  refine ⟨?_, rfl, ?_⟩
  · intro c hc
    rw [pad3] at hc
    simp only [List.mem_cons, List.mem_singleton, List.not_mem_nil, or_false] at hc
    rcases hc with rfl | rfl | rfl
    · exact (charVal_ofNat _ (Nat.mod_lt _ (by norm_num))).2
    · exact (charVal_ofNat _ (Nat.mod_lt _ (by norm_num))).2
    · exact (charVal_ofNat _ (Nat.mod_lt _ (by norm_num))).2
  · rw [pad3]
    have e1 := (charVal_ofNat (m / 100 % 10) (Nat.mod_lt _ (by norm_num))).1
    have e2 := (charVal_ofNat (m / 10 % 10) (Nat.mod_lt _ (by norm_num))).1
    have e3 := (charVal_ofNat (m % 10) (Nat.mod_lt _ (by norm_num))).1
    simp only [digitsVal, List.foldl_cons, List.foldl_nil]
    rw [Nat.mul_zero, Nat.zero_add]
    rw [e1, e2, e3]
    omega

theorem takeWhile_all_append (p : Char → Bool) (ds : List Char) (x : Char) (rest : List Char)
    (hds : ∀ c ∈ ds, p c = true) (hx : p x = false) :
    (ds ++ x :: rest).takeWhile p = ds := by
  induction ds with
  | nil => simp [List.takeWhile_cons, hx]
  | cons a as ih =>
    rw [List.cons_append, List.takeWhile_cons, if_pos (hds a (by simp))]
    rw [ih (fun c hc => hds c (by simp [hc]))]

theorem takeWhile_all (p : Char → Bool) (ds : List Char) (hds : ∀ c ∈ ds, p c = true) :
    ds.takeWhile p = ds := by
  induction ds with
  | nil => rfl
  | cons a as ih =>
    rw [List.takeWhile_cons, if_pos (hds a (by simp))]
    rw [ih (fun c hc => hds c (by simp [hc]))]

theorem matchNumber_numeral (ip fp : List Char)
    (hip : ∀ c ∈ ip, c.isDigit = true) (hip0 : ip ≠ [])
    (hfp : ∀ c ∈ fp, c.isDigit = true) :
    matchNumber (ip ++ '.' :: fp) =
      some (decimalVal ip fp 0, ip.length + 1 + fp.length) := by
  cases ip with
  | nil => exact absurd rfl hip0
  | cons c ip' =>
    have hc : c.isDigit = true := hip c (by simp)
    rw [List.cons_append, matchNumber, if_pos (by simp [hc])]
    rw [matchNumberBody]
    have htake : (c :: (ip' ++ '.' :: fp)).takeWhile Char.isDigit = c :: ip' := by
      rw [show c :: (ip' ++ '.' :: fp) = (c :: ip') ++ '.' :: fp from rfl]
      exact takeWhile_all_append _ _ _ _ hip (by decide)
    simp only [htake]
    rw [if_neg (by simp)]
    rw [show (c :: (ip' ++ '.' :: fp)).drop (c :: ip').length = '.' :: fp from ?_]
    · simp only []
      rw [takeWhile_all Char.isDigit fp hfp]
      rw [List.drop_length, matchExp]
    · rw [show c :: (ip' ++ '.' :: fp) = (c :: ip') ++ '.' :: fp from rfl]
      exact List.drop_left _ _

theorem lex_single_numeral (ip fp : List Char) (q : ℚ)
    (hip : ∀ c ∈ ip, c.isDigit = true) (hip0 : ip ≠ [])
    (hfp : ∀ c ∈ fp, c.isDigit = true)
    (hq : decimalVal ip fp 0 = q) (hin : stod q = some q) :
    parse_infix (String.mk (ip ++ '.' :: fp)) = Outcome.ok [Tok.val (SymNum.q q)] := by
  have hm := matchNumber_numeral ip fp hip hip0 hfp
  cases ip with
  | nil => exact absurd rfl hip0
  | cons c ip' =>
    rw [List.cons_append] at hm
    show lexGo ((c :: (ip' ++ '.' :: fp)).length + 1) (c :: (ip' ++ '.' :: fp)) 0 [] = _
    simp only [lexGo]
    rw [hm, hq]
    simp only []
    rw [hin]
    simp only []
    have hlen : (c :: ip').length + 1 + fp.length = (c :: (ip' ++ '.' :: fp)).length := by
      simp [List.length_append]
      omega
    rw [hlen, List.drop_length]
    simp only [lexGo, List.nil_append]

theorem mkRat_k1000_cross (k : Nat) :
    (mkRat (Int.ofNat k) 1000).num.natAbs * 1000 = k * (mkRat (Int.ofNat k) 1000).den ∧
    0 ≤ (mkRat (Int.ofNat k) 1000).num := by
  set r := mkRat (Int.ofNat k) 1000 with hr
  have hre : r = (k : ℚ) / 1000 := by
    rw [hr, Rat.mkRat_eq_divInt, Rat.divInt_eq_div]
    norm_num
  have hnn : 0 ≤ r := by
    rw [hre]
    positivity
  have hnum : 0 ≤ r.num := Rat.num_nonneg.mpr hnn
  refine ⟨?_, hnum⟩
  have hden : (r.den : ℚ) ≠ 0 := by
    exact_mod_cast r.den_nz
  have hcross : (r.num : ℚ) * 1000 = (k : ℚ) * (r.den : ℚ) := by
    have h1 : (r.num : ℚ) / (r.den : ℚ) = (k : ℚ) / 1000 := by
      rw [Rat.num_div_den, hre]
    field_simp at h1
    linarith
  have hz : r.num * 1000 = (k : Int) * (r.den : Int) := by
    exact_mod_cast hcross
  have := congrArg Int.natAbs hz
  simpa [Int.natAbs_mul] using this

theorem round1000_mkRat (k : Nat) : round1000 (mkRat (Int.ofNat k) 1000) = k := by
  obtain ⟨hn, _⟩ := mkRat_k1000_cross k
  set r := mkRat (Int.ofNat k) 1000
  have hden : 0 < r.den := Nat.pos_of_ne_zero r.den_nz
  rw [round1000]
  have h2 : r.num.natAbs * 2000 = 2 * k * r.den := by
    rw [show r.num.natAbs * 2000 = r.num.natAbs * 1000 * 2 from by ring, hn]
    ring
  rw [h2]
  rw [show 2 * k * r.den + r.den = r.den * (2 * k + 1) by ring]
  rw [show 2 * r.den = r.den * 2 by ring]
  rw [Nat.mul_div_mul_left _ _ hden]
  omega

theorem stod_mkRat_k1000 (k : Nat) (hk : k ≤ Nat.pow 10 300) :
    stod (mkRat (Int.ofNat k) 1000) = some (mkRat (Int.ofNat k) 1000) := by
  obtain ⟨hn, _⟩ := mkRat_k1000_cross k
  set r := mkRat (Int.ofNat k) 1000
  have hden : 0 < r.den := Nat.pos_of_ne_zero r.den_nz
  rw [stod, if_neg]
  intro hlt
  have hDP : Nat.pow 10 300 * 1000 ≤ dblMaxNat := by decide
  have h1 : dblMaxNat * r.den * 1000 < r.num.natAbs * 1000 :=
    (Nat.mul_lt_mul_right (by norm_num)).mpr hlt
  rw [hn] at h1
  have h2 : dblMaxNat * 1000 * r.den < k * r.den := by
    calc dblMaxNat * 1000 * r.den = dblMaxNat * r.den * 1000 := by ring
    _ < k * r.den := h1
  have h3 : dblMaxNat * 1000 < k := (Nat.mul_lt_mul_right hden).mp h2
  have h4 : k ≤ dblMaxNat := le_trans hk (le_trans (Nat.le_mul_of_pos_right _ (by norm_num)) hDP)
  have h5 : dblMaxNat ≤ dblMaxNat * 1000 := Nat.le_mul_of_pos_right _ (by norm_num)
  omega

theorem decimalVal_parts (k : Nat) :
    decimalVal (intPartChars (k / 1000)) (pad3 (k % 1000)) 0 = mkRat (Int.ofNat k) 1000 := by
  rw [decimalVal]
  have hip := (intPartChars_spec (k / 1000)).2.2
  have hfp := (pad3_spec (k % 1000) (Nat.mod_lt _ (by norm_num))).2
  simp only [hfp.1, hip, hfp.2]
  rw [if_pos le_rfl]
  norm_num
  congr 1
  omega

theorem c9_value_roundtrip (k : Nat) (hk : k ≤ Nat.pow 10 300) :
    parse_infix (String.mk (Tok.to_string (Tok.val (SymNum.q (mkRat (Int.ofNat k) 1000))))) =
      Outcome.ok [Tok.val (SymNum.q (mkRat (Int.ofNat k) 1000))] := by
  have hts : Tok.to_string (Tok.val (SymNum.q (mkRat (Int.ofNat k) 1000))) =
      intPartChars (k / 1000) ++ '.' :: pad3 (k % 1000) := by
    rw [Tok.to_string, renderVal, render3, round1000_mkRat k]
    rw [if_neg (by have := (mkRat_k1000_cross k).2; omega)]
    rw [List.nil_append]
  rw [hts]
  exact lex_single_numeral _ _ _
    (intPartChars_spec (k / 1000)).1
    (intPartChars_spec (k / 1000)).2.1
    (pad3_spec (k % 1000) (Nat.mod_lt _ (by norm_num))).1
    (by rw [decimalVal_parts k]) (stod_mkRat_k1000 k hk)

/-! ## Claims -/

/-- C1: the claim that every math function token is lowered to a call of the
external routine computing the same math function the interpreter applies —
and in particular that `ceil(x)` computes the ceiling of `x` in both
backends — fails on the code: `ir_math` declares `Ceil` as the external
routine `fabs` (src/main.cpp line 602), so for `ceil(1.5)` the interpreted
result is `2` while the generated module computes `fabs(1.5) = 1.5`. -/
theorem c1_ceil_lowered_to_fabs_diverges :
    run_interp ("ceil(1.5)") = Outcome.ok 2 ∧
    run_llir ("ceil(1.5)") = Outcome.ok (3 / 2) ∧
    llir.ir_math Function.Ty.Ceil = some llir.ExtFn.fabs ∧
    (2 : ℝ) ≠ 3 / 2 := by
  have hq : ((mkRat 3 2 : ℚ) : ℝ) = 3 / 2 := by
    rw [Rat.mkRat_eq_divInt]
    norm_num [Rat.divInt_eq_div]
  refine ⟨?_, ?_, rfl, by norm_num⟩
  · have h : run_interp ("ceil(1.5)") =
        Outcome.ok (m_ceil (SymNum.denote (SymNum.q (mkRat 3 2)))) := by rfl
    rw [h, SymNum.denote, m_ceil, hq]
    have hc : ⌈(3 / 2 : ℝ)⌉ = 2 := by
      rw [Int.ceil_eq_iff]
      norm_num
    rw [hc]
    norm_num
  · have h : run_llir ("ceil(1.5)") =
        Outcome.ok (llir.extSem llir.ExtFn.fabs [SymNum.denote (SymNum.q (mkRat 3 2))]) := by rfl
    rw [h, llir.extSem, SymNum.denote]
    simp only [List.getD, List.get?, Option.getD_some]
    rw [hq]
    norm_num

/-- C2: the full pipeline on the `main` example
`"-1 + 5 * (6 + 2) - 12 / 4 + 2**4 + pi - e * 1.01e-1 - (1 << 5) +
-hypot(1, -2, 3) * max(1, 2, min(4, 5))"` succeeds, and the result printed
with `%.3lf` (round to the nearest multiple of `0.001`) is `7.900`. -/
theorem c2_end_to_end_7_900 :
    ∃ r, run_interp bigExpr = Outcome.ok r ∧ round (1000 * r) = 7900 := by
  refine ⟨c2raw, by rfl, ?_⟩
  rw [c2raw_closed, round_eq]
  have hpi1 := Real.pi_gt_d6
  have hpi2 := Real.pi_lt_d6
  have he1 := Real.exp_one_gt_d9
  have he2 := Real.exp_one_lt_d9
  have hs1 : (3.7416573 : ℝ) < Real.sqrt 14 := (Real.lt_sqrt (by norm_num)).2 (by norm_num)
  have hs2 : Real.sqrt 14 < 3.7416574 := (Real.sqrt_lt' (by norm_num)).2 (by norm_num)
  rw [Int.floor_eq_iff]
  constructor
  · push_cast
    nlinarith
  · push_cast
    nlinarith

/-- C3 counterexample: the claim says a function call whose requested
argument count exceeds the function's declared arity is rejected; but the
full pipeline on `pow(1,2,3)` (declared arity 2, requested count 3)
succeeds and evaluates to `pow(1,2) = 1`. -/
theorem c3_pow_three_args_accepted : run_interp ("pow(1,2,3)") = Outcome.ok 1 := by
  have h : run_interp ("pow(1,2,3)") =
      Outcome.ok (m_pow (SymNum.denote (SymNum.q 1)) (SymNum.denote (SymNum.q 2))) := by rfl
  rw [h, m_pow, SymNum.denote, SymNum.denote, Real.rpow_eq_pow]
  push_cast
  rw [Real.one_rpow]

/-- C3 (amended): for a function token the evaluator consumes the
following argument-count literal and fails with a syntax error exactly when
the declared arity (as a signed int) exceeds the stack size or the
requested count exceeds the stack size (a negative count compares as a
huge unsigned value); otherwise the requested number of operands is popped
and the handler applied — so an over-supplied fixed-arity call such as
`pow(1,2,3)` is not rejected and evaluates to `pow(1,2) = 1.000`. -/
theorem c3_amended_eval_check :
    (∀ (f : Function.Ty) (a : Nat) (v : SymNum) (rest : List Tok) (stack : List ℝ),
      ((Function.arity f > (stack.length : Int) ∨ uGt (Tok.valTrunc (Tok.val v)) stack.length) →
        evalGo interpBackend (Tok.fnTok f a :: Tok.val v :: rest) stack = Outcome.err Err.syntaxErr)
      ∧ (¬(Function.arity f > (stack.length : Int) ∨ uGt (Tok.valTrunc (Tok.val v)) stack.length) →
          ∀ r : ℝ, function_exec f ((stack.take (Tok.valTrunc (Tok.val v)).toNat).reverse) = some r →
            evalGo interpBackend (Tok.fnTok f a :: Tok.val v :: rest) stack =
              evalGo interpBackend rest (r :: stack.drop (Tok.valTrunc (Tok.val v)).toNat))
      ∧ (¬(Function.arity f > (stack.length : Int) ∨ uGt (Tok.valTrunc (Tok.val v)) stack.length) →
          function_exec f ((stack.take (Tok.valTrunc (Tok.val v)).toNat).reverse) = none →
            evalGo interpBackend (Tok.fnTok f a :: Tok.val v :: rest) stack = Outcome.crash))
    ∧ run_interp ("pow(1,2,3)") = Outcome.ok 1 := by
  have hB : interpBackend.fnExec = function_exec := rfl
  constructor
  · intro f a v rest stack
    refine ⟨fun h => ?_, fun h r hr => ?_, fun h hr => ?_⟩
    · simp only [evalGo]
      rw [if_pos h]
    · simp only [evalGo]
      rw [if_neg h, hB, hr]
    · simp only [evalGo]
      rw [if_neg h, hB, hr]
  · have h : run_interp ("pow(1,2,3)") =
        Outcome.ok (m_pow (SymNum.denote (SymNum.q 1)) (SymNum.denote (SymNum.q 2))) := by rfl
    rw [h, m_pow, SymNum.denote, SymNum.denote, Real.rpow_eq_pow]
    push_cast
    rw [Real.one_rpow]

/-- Witness for the amended C3 theorem at `Pow` with requested count 5 on
an empty stack. -/
theorem c3_amended_eval_check_witness :
    evalGo interpBackend [Tok.fnTok Function.Ty.Pow 0, Tok.val (SymNum.q (natQ 5))] [] =
      Outcome.err Err.syntaxErr :=
  (c3_amended_eval_check.1 Function.Ty.Pow 0 (SymNum.q (natQ 5)) [] []).1 (by decide)

/-- C4 counterexample: for `max((1,2))` the parser finalizes the argument
counter at 2 and emits the literal 2, although the call supplies exactly
one top-level argument expression, `(1,2)` — the separator inside a plain
parenthesis group still increments the enclosing call's counter. -/
theorem c4_inner_separator_counted :
    parse_infix ("max((1,2))") = Outcome.ok
      [Tok.fnTok Function.Ty.Max 0, Tok.opTok Operator.Ty.Fn, Tok.opTok Operator.Ty.Lbr,
       Tok.val (SymNum.q 1), Tok.opTok Operator.Ty.Sep, Tok.val (SymNum.q 2),
       Tok.opTok Operator.Ty.Rbr, Tok.opTok Operator.Ty.Rbr] ∧
    shunting_yard
      [Tok.fnTok Function.Ty.Max 0, Tok.opTok Operator.Ty.Fn, Tok.opTok Operator.Ty.Lbr,
       Tok.val (SymNum.q 1), Tok.opTok Operator.Ty.Sep, Tok.val (SymNum.q 2),
       Tok.opTok Operator.Ty.Rbr, Tok.opTok Operator.Ty.Rbr] = Outcome.ok
      [Tok.val (SymNum.q 1), Tok.val (SymNum.q 2), Tok.fnTok Function.Ty.Max 2,
       Tok.val (SymNum.q 2)] ∧
    topLevelArgs
      [Tok.opTok Operator.Ty.Lbr, Tok.val (SymNum.q 1), Tok.opTok Operator.Ty.Sep,
       Tok.val (SymNum.q 2), Tok.opTok Operator.Ty.Rbr] = 1 ∧
    (2 : Nat) ≠ 1 := by
  refine ⟨by rfl, by rfl, by rfl, by decide⟩

/-- C4 (amended): a separator unconditionally increments the counter of
whichever function is on top of the function stack — the parser does not
track plain parenthesis nesting — so the inner comma of `max((1,2))`
counts and the input evaluates to `2.000`. -/
theorem c4_amended_separator_increments :
    (∀ (rest post ops : List Tok) (f : Function.Ty) (a : Nat) (fns' : List (Function.Ty × Nat)),
      syGo (Tok.opTok Operator.Ty.Sep :: rest) post ops ((f, a) :: fns') =
        syGo rest (popPrec 1 ops post).2 (popPrec 1 ops post).1 ((f, a + 1) :: fns')) ∧
    run_interp ("max((1,2))") = Outcome.ok 2 := by
  constructor
  · intro rest post ops f a fns'
    rfl
  · have h : run_interp ("max((1,2))") = Outcome.ok
        (Function.binary_reduce 0 max [SymNum.denote (SymNum.q 1), SymNum.denote (SymNum.q 2)]) := by
      rfl
    rw [h, Function.binary_reduce, SymNum.denote, SymNum.denote]
    push_cast
    norm_num

/-- C5 counterexample: the claim says every zero-argument call is
rejected and never yields a numeric result, but `max()` runs the whole
pipeline to the numeric result `0.000` (the defensive neutral value of
`binary_reduce`). -/
theorem c5_variadic_zero_args_accepted : run_interp ("max()") = Outcome.ok 0 := by rfl

/-- C5 (amended): a zero-argument call of a fixed-arity function is
rejected by the evaluator (declared arity exceeds the empty stack), but a
zero-argument call of a variadic function (`max()`, `min()`, `hypot()`)
passes the checks in both backends and yields the neutral value `0.0`. -/
theorem c5_amended_zero_arg_calls :
    (∀ f : Function.Ty, 1 ≤ Function.arity f →
      evalGo interpBackend [Tok.fnTok f 0, Tok.val (SymNum.q (natQ 0))] [] =
        Outcome.err Err.syntaxErr) ∧
    run_interp ("max()") = Outcome.ok 0 ∧
    run_interp ("min()") = Outcome.ok 0 ∧
    run_interp ("hypot()") = Outcome.ok 0 ∧
    run_llir ("max()") = Outcome.ok 0 ∧
    run_interp ("sin()") = Outcome.err Err.syntaxErr := by
  refine ⟨?_, by rfl, by rfl, by rfl, by rfl, by rfl⟩
  intro f hf
  simp only [evalGo]
  rw [if_pos]
  left
  simp only [List.length_nil, Nat.cast_zero]
  omega

/-- Witness for the amended C5 theorem at the fixed-arity `sin`. -/
theorem c5_amended_zero_arg_calls_witness :
    evalGo interpBackend [Tok.fnTok Function.Ty.Sin 0, Tok.val (SymNum.q (natQ 0))] [] =
      Outcome.err Err.syntaxErr :=
  c5_amended_zero_arg_calls.1 Function.Ty.Sin (by decide)

/-- C6: a `+` or `-` whose immediately preceding token is absent, or is an
operator other than `)`, is classified as unary plus/minus (arity 1,
higher precedence than the binary form); in any lexer output a function
token is immediately followed by the `Fn` call marker, so a `+`/`-` never
directly follows a function token; and consequently `-(2+3)` parses and
evaluates to `-5.000`. -/
theorem c6_unary_disambiguation :
    (∀ back : Option Tok,
      (back = none ∨ ∃ o, back = some (Tok.opTok o) ∧ o ≠ Operator.Ty.Rbr) →
        classifyOp back Operator.Ty.Add = Operator.Ty.Pos ∧
        classifyOp back Operator.Ty.Sub = Operator.Ty.Neg) ∧
    Operator.arity Operator.Ty.Pos = 1 ∧ Operator.arity Operator.Ty.Neg = 1 ∧
    Operator.precedence Operator.Ty.Add < Operator.precedence Operator.Ty.Pos ∧
    Operator.precedence Operator.Ty.Sub < Operator.precedence Operator.Ty.Neg ∧
    (∀ (s : String) (toks : List Tok), parse_infix s = Outcome.ok toks → fnThenFn toks) ∧
    run_interp ("-(2+3)") = Outcome.ok (-5) := by
  refine ⟨?_, rfl, rfl, by decide, by decide, ?_, ?_⟩
  · intro back hb
    rcases hb with rfl | ⟨o, rfl, ho⟩
    · exact ⟨rfl, rfl⟩
    · constructor <;>
        simp [classifyOp, Tok.is_value, Tok.operator_, Tok.is_function, ho]
  · intro s toks h
    refine lexGo_fnThenFn (s.length + 1) s.data 0 [] toks h ?_ ?_
    · intro i f a hi
      exact absurd hi (by simp)
    · intro ⟨f, a, hl⟩
      exact absurd hl (by simp)
  · have h : run_interp ("-(2+3)") =
        Outcome.ok (-(SymNum.denote (SymNum.q 2) + SymNum.denote (SymNum.q 3))) := by rfl
    rw [h, SymNum.denote, SymNum.denote]
    push_cast
    norm_num

/-- Witness for C6 at the empty context and after a `*`. -/
theorem c6_unary_disambiguation_witness :
    (classifyOp none Operator.Ty.Add = Operator.Ty.Pos ∧
      classifyOp none Operator.Ty.Sub = Operator.Ty.Neg) ∧
    classifyOp (some (Tok.opTok Operator.Ty.Mul)) Operator.Ty.Sub = Operator.Ty.Neg :=
  ⟨c6_unary_disambiguation.1 none (Or.inl rfl),
   (c6_unary_disambiguation.1 (some (Tok.opTok Operator.Ty.Mul)) (Or.inr ⟨Operator.Ty.Mul, rfl, by decide⟩)).2⟩

/-- C7: the claim says the lexer always either returns tokens or reports a
lex error; but `SIN(1)` makes `token_to_function.at` throw an uncaught
`std::out_of_range` (the icase regex matched, the map key is exact), and
`1e999` makes `stod` throw — both are a third termination mode, modelled
as `crash`; a genuinely invalid character still produces the reported lex
error with its offset. -/
theorem c7_lexer_third_way :
    parse_infix ("SIN(1)") = Outcome.crash ∧
    parse_infix ("1e999") = Outcome.crash ∧
    parse_infix ("1@2") = Outcome.err (Err.invalidChar '@' 1) := by
  exact ⟨by rfl, by rfl, by rfl⟩

/-- C8: the parser reports the mismatched-parentheses error exactly when a
`)` finds no sentinel below it on the operator stack or a sentinel remains
in the end-of-input drain; a separator with an empty function stack is the
separator-outside-call error; and when the parser fails neither evaluator
backend runs (the pipeline returns the parse error); concretely `(1+2`
and `1,2` fail this way. -/
theorem c8_structural_errors :
    (∀ (ops post : List Tok) (fns : List (Function.Ty × Nat)),
      (∀ t ∈ ops, t.is_sentinel = false) →
        popRbr ops post fns = Outcome.err Err.parenMismatch) ∧
    (∀ (ops post : List Tok) (fns : List (Function.Ty × Nat)),
      (∃ t ∈ ops, t.is_sentinel = true) →
        popRbr ops post fns ≠ Outcome.err Err.parenMismatch) ∧
    (∀ ops post : List Tok,
      drainOps ops post = Outcome.err Err.parenMismatch ↔ ∃ t ∈ ops, t.is_sentinel = true) ∧
    (∀ (rest post ops : List Tok),
      syGo (Tok.opTok Operator.Ty.Sep :: rest) post ops [] = Outcome.err Err.sepOutside) ∧
    (∀ (s : String) (toks : List Tok) (e : Err),
      parse_infix s = Outcome.ok toks → shunting_yard toks = Outcome.err e →
        run_interp s = Outcome.err e ∧ run_llir s = Outcome.err e) ∧
    run_interp ("(1+2") = Outcome.err Err.parenMismatch ∧
    run_interp ("1,2") = Outcome.err Err.sepOutside ∧
    run_llir ("(1+2") = Outcome.err Err.parenMismatch ∧
    run_llir ("1,2") = Outcome.err Err.sepOutside := by
  refine ⟨?_, ?_, ?_, ?_, ?_, by rfl, by rfl, by rfl, by rfl⟩
  · intro ops post fns h
    exact popRbr_no_sentinel ops h post fns
  · intro ops post fns h
    exact popRbr_sentinel ops h post fns
  · intro ops post
    exact drainOps_err_iff ops post
  · intro rest post ops
    rfl
  · intro s toks e h1 h2
    rw [run_interp, run_llir, h1]
    constructor <;> rw [show Outcome.bind (Outcome.ok toks) shunting_yard = shunting_yard toks
      from rfl, h2] <;> rfl

/-- Witness for C8 on concrete one-element stacks. -/
theorem c8_structural_errors_witness :
    popRbr [Tok.opTok Operator.Ty.Add] [] [] = Outcome.err Err.parenMismatch ∧
    (drainOps [Tok.opTok Operator.Ty.Lbr] [] = Outcome.err Err.parenMismatch ↔
      ∃ t ∈ [Tok.opTok Operator.Ty.Lbr], t.is_sentinel = true) := by
  constructor
  · exact c8_structural_errors.1 [Tok.opTok Operator.Ty.Add] [] []
      (by intro t ht; simp at ht; rw [ht]; rfl)
  · exact c8_structural_errors.2.2.1 [Tok.opTok Operator.Ty.Lbr] []

/-- C9 counterexample: re-lexing a rendered token does not reproduce an
equivalent token for each of the three kinds: the function token `sin`
renders as `sin`, which re-lexes to an invalid-character error (no
parenthesis follows); the value `0.0001` renders as `0.000`, which
re-lexes to the different value `0`; the unary `Pos` renders as the
non-lexable `+:`; and even the binary `Add` renders as `+`, which
re-lexes as the different kind `Pos`. -/
theorem c9_rendering_not_invertible :
    Tok.to_string (Tok.fnTok Function.Ty.Sin 0) = ['s', 'i', 'n'] ∧
    parse_infix (String.mk ['s', 'i', 'n']) = Outcome.err (Err.invalidChar 's' 0) ∧
    Tok.to_string (Tok.val (SymNum.q (mkRat 1 10000))) = ['0', '.', '0', '0', '0'] ∧
    parse_infix (String.mk ['0', '.', '0', '0', '0']) = Outcome.ok [Tok.val (SymNum.q 0)] ∧
    SymNum.q (mkRat 1 10000) ≠ SymNum.q 0 ∧
    Tok.to_string (Tok.opTok Operator.Ty.Pos) = ['+', ':'] ∧
    parse_infix (String.mk ['+', ':']) = Outcome.err (Err.invalidChar ':' 1) ∧
    Tok.to_string (Tok.opTok Operator.Ty.Add) = ['+'] ∧
    parse_infix (String.mk ['+']) = Outcome.ok [Tok.opTok Operator.Ty.Pos] ∧
    Operator.Ty.Add ≠ Operator.Ty.Pos := by
  refine ⟨by rfl, by rfl, by rfl, by rfl, by decide, by rfl, by rfl, by rfl, by rfl, by decide⟩

/-- C9 (amended): the rendering round-trips only in restricted cases — a
value token holding a nonnegative exact multiple of `0.001` (within the
range of `double`) re-lexes to the same value; a surface operator other
than `+`/`-` (and the synthetic `Pos`/`Neg`/`Fn`/`Noop`) re-lexes to the
same operator kind, while `+` and `-` re-lex as their unary counterparts;
a function name re-lexes to the same function token only when an open
parenthesis follows. -/
theorem c9_amended_roundtrip :
    (∀ k : Nat, k ≤ Nat.pow 10 300 →
      parse_infix (String.mk (Tok.to_string (Tok.val (SymNum.q (mkRat (Int.ofNat k) 1000))))) =
        Outcome.ok [Tok.val (SymNum.q (mkRat (Int.ofNat k) 1000))]) ∧
    (∀ o : Operator.Ty, o ≠ Operator.Ty.Noop → o ≠ Operator.Ty.Pos → o ≠ Operator.Ty.Neg →
      o ≠ Operator.Ty.Fn → o ≠ Operator.Ty.Add → o ≠ Operator.Ty.Sub →
      parse_infix (String.mk (Tok.to_string (Tok.opTok o))) = Outcome.ok [Tok.opTok o]) ∧
    parse_infix (String.mk (Tok.to_string (Tok.opTok Operator.Ty.Add))) =
      Outcome.ok [Tok.opTok Operator.Ty.Pos] ∧
    parse_infix (String.mk (Tok.to_string (Tok.opTok Operator.Ty.Sub))) =
      Outcome.ok [Tok.opTok Operator.Ty.Neg] ∧
    (∀ f : Function.Ty, f ≠ Function.Ty.Pass →
      parse_infix (String.mk (Tok.to_string (Tok.fnTok f 0) ++ ['('])) =
        Outcome.ok [Tok.fnTok f 0, Tok.opTok Operator.Ty.Fn]) := by
  refine ⟨c9_value_roundtrip, ?_, by rfl, by rfl, ?_⟩
  · intro o h1 h2 h3 h4 h5 h6
    cases o <;> first
      | exact absurd rfl h1
      | exact absurd rfl h2
      | exact absurd rfl h3
      | exact absurd rfl h4
      | exact absurd rfl h5
      | exact absurd rfl h6
      | rfl
  · intro f hf
    cases f <;> first
      | exact absurd rfl hf
      | rfl

/-- Witness for the amended C9 theorem at `1.500`, `*` and `sin(`. -/
theorem c9_amended_roundtrip_witness :
    parse_infix (String.mk (Tok.to_string (Tok.val (SymNum.q (mkRat (Int.ofNat 1500) 1000))))) =
      Outcome.ok [Tok.val (SymNum.q (mkRat (Int.ofNat 1500) 1000))] ∧
    parse_infix (String.mk (Tok.to_string (Tok.opTok Operator.Ty.Mul))) =
      Outcome.ok [Tok.opTok Operator.Ty.Mul] ∧
    parse_infix (String.mk (Tok.to_string (Tok.fnTok Function.Ty.Sin 0) ++ ['('])) =
      Outcome.ok [Tok.fnTok Function.Ty.Sin 0, Tok.opTok Operator.Ty.Fn] :=
  ⟨c9_amended_roundtrip.1 1500 (by norm_num),
   c9_amended_roundtrip.2.1 Operator.Ty.Mul (by decide) (by decide) (by decide) (by decide)
     (by decide) (by decide),
   c9_amended_roundtrip.2.2.2.2 Function.Ty.Sin (by decide)⟩

/-- C10: the claim says every handler reads only in-bounds operand
positions once the evaluator's explicit checks pass; but for the postfix
of `1+pow(2)` the checks pass (declared arity 2 is not greater than the
stack size 2 and the requested count 1 is in range) while the `pow`
handler `v_2` reads `v[1]` of a one-element operand vector — an
out-of-bounds read (undefined behaviour), i.e. the run crashes. -/
theorem c10_pow_handler_oob :
    run_interp ("1+pow(2)") = Outcome.crash ∧
    ¬(Function.arity Function.Ty.Pow > ((2 : Nat) : Int) ∨ uGt 1 2) ∧
    (∀ x : ℝ, function_exec Function.Ty.Pow [x] = none) := by
  refine ⟨by rfl, by decide, fun x => by rfl⟩

end Ariya
